import Mathlib

/-!
Verification of the balloon-weather pipeline (`src/app.py`).

The pipeline is embedded shallowly:

* floats are modelled exactly: a value is either a finite rational
  (`FVal.fin q`) or a non-finite float (`FVal.nonfin`, covering NaN and the
  infinities), so `np.isfinite` is the `isFinite` discriminator;
* Python's `round` (banker's rounding, ties to even) is `pyRound` over `ℚ`;
* Python dictionaries are association lists in key-insertion order:
  assignment to an existing key updates it in place (`dictInsert`),
  `defaultdict(list).append` appends to the key's bucket (`appendBin`);
* the network is a parameter: the balloon feed is a `FeedResp` value and the
  weather endpoint is a function `BinKey → ℕ → Resp` giving the response to
  the n-th call for a key's coordinates;
* exceptions are `Option`/explicit branches: a raised-and-caught `TypeError`
  inside the feed filter is `none` from `tryFilter`, mirroring the
  `except` branch of `fetch_balloon_data` that returns the empty list.
-/

namespace BalloonWeather

/-- A float as the pipeline observes it: a finite rational, or one of the
non-finite values (NaN, +inf, -inf) which `np.isfinite` rejects. -/
inductive FVal
  | fin (q : ℚ)
  | nonfin
  deriving DecidableEq

/-- `np.isfinite` on a scalar. -/
def isFinite : FVal → Bool
  | .fin _ => true
  | .nonfin => false

/-- One validated balloon entry `(lat, lon, alt)`. -/
abbrev Entry := FVal × FVal × FVal

/-- A raw scalar of the feed: a number, or something non-numeric on which
`np.isfinite` raises `TypeError`. -/
inductive RawVal
  | num (v : FVal)
  | notNum
  deriving DecidableEq

/-- A raw feed element: a sized sequence of scalars, or a value on which
`len` raises `TypeError`. -/
inductive RawEntry
  | arr (vs : List RawVal)
  | nonArr
  deriving DecidableEq

/-- Whether a raw scalar is numeric. -/
def vNum : RawVal → Bool
  | .num _ => true
  | .notNum => false

/-- Whether a raw scalar is a finite number. -/
def vFinite : RawVal → Bool
  | .num v => isFinite v
  | .notNum => false

/-- The filter condition `len(entry) == 3 and all(np.isfinite(entry))` of
`fetch_balloon_data` on one entry: `some keep` when it evaluates to a
boolean, `none` when it raises `TypeError` (`len` of a non-sequence, or
`np.isfinite` of a 3-element entry holding a non-numeric value; a wrong
length short-circuits the `and` before `np.isfinite` runs). -/
def checkEntry : RawEntry → Option Bool
  | .nonArr => none
  | .arr vs =>
    if vs.length = 3 then
      if vs.all vNum then some (vs.all vFinite) else none
    else some false

/-- The numeric triple of a 3-element all-numeric raw entry. -/
def entryVals : RawEntry → Option Entry
  | .arr [.num a, .num b, .num c] => some (a, b, c)
  | _ => none

/-- The list comprehension of `fetch_balloon_data` line 29: filters the
entries left to right, `none` when any entry makes the filter condition
raise (the exception is caught further out and turns the whole fetch into
the empty list). -/
def tryFilter : List RawEntry → Option (List Entry)
  | [] => some []
  | e :: es =>
    match checkEntry e with
    | none => none
    | some keep =>
      match tryFilter es with
      | none => none
      | some rest =>
        if keep then
          match entryVals e with
          | some t => some (t :: rest)
          | none => some rest
        else some rest

/-- The triple kept for a raw entry that passes validation, `none` for one
that is discarded or raises; used to state what the filter keeps. -/
def validTriple (e : RawEntry) : Option Entry :=
  match checkEntry e, entryVals e with
  | some true, some t => some t
  | _, _ => none

/-- The parsed body of the balloon feed response. -/
inductive FeedBody
  | notJson
  | notList
  | list (entries : List RawEntry)
  deriving DecidableEq

/-- The upstream balloon feed call: a non-200 status, or a 200 with a body. -/
inductive FeedResp
  | failure
  | ok (body : FeedBody)
  deriving DecidableEq

/-- `fetch_balloon_data` (src/app.py lines 19-39): on non-200, a non-list or
empty body, or a `TypeError` raised inside the filter, return `[]`; else
return the filtered entries. -/
def fetch_balloon_data : FeedResp → List Entry
  | .failure => []
  | .ok .notJson => []
  | .ok .notList => []
  | .ok (.list entries) =>
    if entries.isEmpty then []
    else
      match tryFilter entries with
      | some kept => kept
      | none => []

/-- Python 3 `round` on an exact rational: nearest integer, ties to even. -/
def pyRound (q : ℚ) : ℤ :=
  if q - ⌊q⌋ < 1 / 2 then ⌊q⌋
  else if 1 / 2 < q - ⌊q⌋ then ⌊q⌋ + 1
  else if ⌊q⌋ % 2 = 0 then ⌊q⌋ else ⌊q⌋ + 1

/-- One binned coordinate: `round(value / bin_size) * bin_size`. -/
def binVal (x binSize : ℚ) : ℚ := (pyRound (x / binSize) : ℚ) * binSize

/-- The module constant `BIN_SIZE = 2.0`. -/
def BIN_SIZE : ℚ := 2

/-- A bin key `(bin_lat, bin_lon)`. -/
abbrev BinKey := ℚ × ℚ

/-- The bin key of an entry, `none` when the entry is dropped because its
latitude or longitude is not finite (the altitude is not inspected). -/
def entryKey (binSize : ℚ) : Entry → Option BinKey
  | (.fin la, .fin lo, _) => some (binVal la binSize, binVal lo binSize)
  | _ => none

/-- The binner's `defaultdict(list)` in key-insertion order. -/
abbrev BinMap := List (BinKey × List Entry)

/-- `binned_coords[(bin_lat, bin_lon)].append(pos)`: append to an existing
bucket in place, or open a new bucket at the end. -/
def appendBin (m : BinMap) (k : BinKey) (e : Entry) : BinMap :=
  match m with
  | [] => [(k, [e])]
  | (k2, es) :: rest =>
    if k2 = k then (k2, es ++ [e]) :: rest
    else (k2, es) :: appendBin rest k e

/-- The loop of `bin_coordinates` over the entries. -/
def bin_coordinates_go (binSize : ℚ) (m : BinMap) : List Entry → BinMap
  | [] => m
  | e :: es =>
    match entryKey binSize e with
    | some k => bin_coordinates_go binSize (appendBin m k e) es
    | none => bin_coordinates_go binSize m es

/-- `bin_coordinates` (src/app.py lines 44-55), with the bin size as an
argument (the source reads the module constant `BIN_SIZE`). -/
def bin_coordinates (data : List Entry) (binSize : ℚ) : BinMap :=
  bin_coordinates_go binSize [] data

/-- Association-list lookup, mirroring Python `d[k]` / `k in d`. -/
def alookup {β : Type} (m : List (BinKey × β)) (k : BinKey) : Option β :=
  match m with
  | [] => none
  | (k2, v) :: rest => if k2 = k then some v else alookup rest k

/-- The bucket a bin map holds for a key (empty when the key is absent). -/
def bucketOf (m : BinMap) (k : BinKey) : List Entry := (alookup m k).getD []

/-- The concatenation of all buckets of a bin map, in map order. -/
def binsJoin : BinMap → List Entry
  | [] => []
  | kb :: rest => kb.2 ++ binsJoin rest

/-- Boolean form of "this entry lands in bucket `k`". -/
def keyMatches (binSize : ℚ) (k : BinKey) (e : Entry) : Bool :=
  decide (entryKey binSize e = some k)

/-- Boolean form of "this entry is binned at all". -/
def hasKey (binSize : ℚ) (e : Entry) : Bool := (entryKey binSize e).isSome

/-- The weather response body the pipeline consumes:
`{main: {temp, pressure}, wind: {speed}, weather: [{description}]}`. -/
structure WJson where
  main_temp : ℚ
  main_pressure : ℚ
  wind_speed : ℚ
  weather0_desc : String
  deriving DecidableEq

/-- The `weather_info` record built in `get_all_weather`. -/
structure WRec where
  temperature : ℚ
  pressure : ℚ
  wind_speed : ℚ
  weather_desc : String
  deriving DecidableEq

/-- Field extraction of `get_all_weather` lines 97-102. -/
def extractW (j : WJson) : WRec :=
  { temperature := j.main_temp
    pressure := j.main_pressure
    wind_speed := j.wind_speed
    weather_desc := j.weather0_desc }

/-- A 200 body: parseable JSON, or one on which `response.json()` raises. -/
inductive WBody
  | valid (j : WJson)
  | malformed
  deriving DecidableEq

/-- One weather-endpoint response. -/
inductive Resp
  | ok (body : WBody)
  | rateLimited
  | err (code : ℕ)
  deriving DecidableEq

/-- The retry loop of `fetch_weather` (src/app.py lines 58-75), instrumented
with the number of upstream calls made: `responses n` is the endpoint's
answer to the n-th call, `fuel` the remaining iterations of
`for attempt in range(3)`, and `n` the calls made so far. -/
def fetch_weather_go (responses : ℕ → Resp) : ℕ → ℕ → Option WJson × ℕ
  | 0, n => (none, n)
  | fuel + 1, n =>
    match responses n with
    | .ok (.valid j) => (some j, n + 1)
    | .ok .malformed => (none, n + 1)
    | .rateLimited => fetch_weather_go responses fuel (n + 1)
    | .err _ => (none, n + 1)

/-- `fetch_weather`: the parsed JSON (or `None`) and how many calls the
endpoint received. -/
def fetch_weather (responses : ℕ → Resp) : Option WJson × ℕ :=
  fetch_weather_go responses 3 0

/-- The weather maps `weather_data` / `cached_weather_data`. -/
abbrev WMap := List (BinKey × WRec)

/-- Python dictionary assignment `d[k] = v`: update in place or append. -/
def dictInsert (m : WMap) (k : BinKey) (v : WRec) : WMap :=
  match m with
  | [] => [(k, v)]
  | (k2, w) :: rest =>
    if k2 = k then (k2, v) :: rest
    else (k2, w) :: dictInsert rest k v

/-- The first loop of `get_all_weather` (lines 86-91): serve cached keys
into `weather_data` and collect the uncached keys as fetch tasks, in key
order. -/
def partitionGo (cache : WMap) (wd : WMap) (tasks : List BinKey) :
    List BinKey → WMap × List BinKey
  | [] => (wd, tasks)
  | k :: ks =>
    match alookup cache k with
    | some w => partitionGo cache (dictInsert wd k w) tasks ks
    | none => partitionGo cache wd (tasks ++ [k]) ks

/-- `weather_data` after the cache pass, and the keys handed to
`fetch_weather`. -/
def partitionKeys (cache : WMap) (keys : List BinKey) : WMap × List BinKey :=
  partitionGo cache [] [] keys

/-- The merge loop of `get_all_weather` (lines 95-104) over the zipped
pairs: a truthy result is stored into `weather_data` and the cache under
the paired key. -/
def mergeGo : WMap → WMap → List (BinKey × Option WJson) → WMap × WMap
  | wd, cache, [] => (wd, cache)
  | wd, cache, (k, some j) :: rest =>
    mergeGo (dictInsert wd k (extractW j)) (dictInsert cache k (extractW j)) rest
  | wd, cache, (_, none) :: rest => mergeGo wd cache rest

/-- `get_all_weather` (src/app.py lines 80-107): the returned
`weather_data` and the cache after the run. Faithful to the source, it zips
ALL requested keys against the fetch results, which only exist for the
uncached keys (line 95: `zip(binned_coords.keys(), results)`). -/
def get_all_weather (cache : WMap) (keys : List BinKey)
    (endpoint : BinKey → ℕ → Resp) : WMap × WMap :=
  let p := partitionKeys cache keys
  let results := p.2.map (fun k => (fetch_weather (endpoint k)).1)
  mergeGo p.1 cache (keys.zip results)

/-- One element of the final API response. -/
structure OutRec where
  lat : FVal
  lon : FVal
  alt : FVal
  temperature : ℚ
  pressure : ℚ
  wind_speed : ℚ
  weather_desc : String
  deriving DecidableEq

/-- The joined record appended in `balloon_weather` lines 126-134. -/
def mkOut (e : Entry) (w : WRec) : OutRec :=
  { lat := e.1
    lon := e.2.1
    alt := e.2.2
    temperature := w.temperature
    pressure := w.pressure
    wind_speed := w.wind_speed
    weather_desc := w.weather_desc }

/-- The assembly loop of `balloon_weather` (lines 121-134), with the
accumulating `weather_data` list made explicit. -/
def assembleGo (wm : WMap) (acc : List OutRec) : BinMap → List OutRec
  | [] => acc
  | kb :: rest =>
    match alookup wm kb.1 with
    | some w => assembleGo wm (acc ++ kb.2.map (fun e => mkOut e w)) rest
    | none => assembleGo wm acc rest

/-- The assembler: join each bin's positions with the bin's weather record,
skipping bins with no weather result. -/
def assemble (bm : BinMap) (wm : WMap) : List OutRec := assembleGo wm [] bm

/-- Modelled from the spec's wording of the assembler contract (section
4.5): for each bin in binner order, one output record per position when the
key has a weather record, nothing otherwise. Compared with `assemble`,
which is translated from the source's accumulating loop. -/
def assemble_spec : BinMap → WMap → List OutRec
  | [], _ => []
  | kb :: rest, wm =>
    (match alookup wm kb.1 with
     | some w => kb.2.map (fun e => mkOut e w)
     | none => []) ++ assemble_spec rest wm

/-- The route's observable outcome: the HTTP-500 error branch, or a (possibly
empty) list of joined records. -/
inductive Outcome
  | err
  | ok (recs : List OutRec)
  deriving DecidableEq

/-- The `/balloon_weather` handler (src/app.py lines 110-137): fetch, escalate
an empty feed as the explicit error response, otherwise bin, resolve weather
and assemble. Returns the outcome and the cache after the run. -/
def balloon_weather (raw : FeedResp) (cache : WMap)
    (endpoint : BinKey → ℕ → Resp) : Outcome × WMap :=
  let data := fetch_balloon_data raw
  if data.isEmpty then (.err, cache)
  else
    let binned := bin_coordinates data BIN_SIZE
    let gw := get_all_weather cache (binned.map Prod.fst) endpoint
    (.ok (assemble binned gw.1), gw.2)

/-- All three fields of an entry finite. -/
def allFinite (e : Entry) : Bool := isFinite e.1 && isFinite e.2.1 && isFinite e.2.2

/-- A well-formed feed entry: finite (1, 2, 3). -/
def goodE : RawEntry := .arr [.num (.fin 1), .num (.fin 2), .num (.fin 3)]

/-- A malformed feed entry: 3 elements, one non-numeric, so the filter
condition raises `TypeError` on it. -/
def badE : RawEntry := .arr [.num (.fin 0), .notNum, .num (.fin 0)]

/-- Two bin keys for the mixed cache-hit/cache-miss scenario. -/
def k1 : BinKey := (0, 0)

/-- See `k1`. -/
def k2 : BinKey := (2, 2)

/-- The record cached for `k1` before the run. -/
def w1 : WRec := { temperature := 1, pressure := 1, wind_speed := 1, weather_desc := "cached" }

/-- The body the endpoint serves for `k2`'s coordinates. -/
def j2 : WJson := { main_temp := 7, main_pressure := 8, wind_speed := 9, weather0_desc := "for k2" }

/-- An endpoint that succeeds for `k2` and fails for every other key. -/
def epC1 : BinKey → ℕ → Resp := fun k _ => if k = k2 then .ok (.valid j2) else .err 500

/-- A sample all-finite entry for witness statements. -/
def e0 : Entry := (FVal.fin 1, FVal.fin 2, FVal.fin 3)

/-- `round` of an exact integer is that integer. -/
theorem pyRound_intCast (k : ℤ) : pyRound (k : ℚ) = k := by
  simp only [pyRound, Int.floor_intCast, sub_self]
  norm_num

/-- Re-binning a binned coordinate with the same positive bin size is the
identity: the key's coordinate is an exact integer multiple of the size. -/
theorem binVal_idem (x b : ℚ) (hb : b ≠ 0) : binVal (binVal x b) b = binVal x b := by
  unfold binVal
  rw [mul_div_cancel_right₀ _ hb, pyRound_intCast]

/-- C8: binning is idempotent on its own output keys — re-applying
`round(coordinate / bin_size) * bin_size` to a BinKey's binned latitude and
longitude with the same `bin_size > 0` yields the same BinKey. -/
theorem C8_binning_idempotent (la lo b : ℚ) (hb : 0 < b) :
    (binVal (binVal la b) b, binVal (binVal lo b) b) = (binVal la b, binVal lo b) := by
  rw [binVal_idem la b (ne_of_gt hb), binVal_idem lo b (ne_of_gt hb)]

/-- Witness for C8 at the concrete key coordinates of (3, 5) with bin size 2. -/
theorem C8_binning_idempotent_witness :
    (0 : ℚ) < 2 ∧ (binVal (binVal 3 2) 2, binVal (binVal 5 2) 2) = (binVal 3 2, binVal 5 2) :=
  ⟨by norm_num, C8_binning_idempotent 3 5 2 (by norm_num)⟩

/-- Lookup after a bucket append: the addressed bucket grows by the entry at
its end, every other bucket is unchanged. -/
theorem bucketOf_appendBin (m : BinMap) (k k2 : BinKey) (e : Entry) :
    bucketOf (appendBin m k e) k2 = if k2 = k then bucketOf m k2 ++ [e] else bucketOf m k2 := by
  induction m with
  | nil =>
    by_cases h : k2 = k
    · simp [appendBin, bucketOf, alookup, h]
    · simp [appendBin, bucketOf, alookup, h, Ne.symm h]
  | cons kv rest ih =>
    obtain ⟨kk, es⟩ := kv
    by_cases hk : kk = k
    · subst hk
      by_cases h2 : k2 = kk
      · simp [appendBin, bucketOf, alookup, h2]
      · simp [appendBin, bucketOf, alookup, h2, Ne.symm h2]
    · by_cases h3 : kk = k2
      · have : ¬ k2 = k := fun h => hk (h3.trans h)
        simp [appendBin, bucketOf, alookup, hk, h3, this]
      · simpa [appendBin, bucketOf, alookup, hk, h3] using ih

/-- Appending one entry to a bucket permutes the joined contents by adding
that entry. -/
theorem binsJoin_appendBin (m : BinMap) (k : BinKey) (e : Entry) :
    (binsJoin (appendBin m k e)).Perm (binsJoin m ++ [e]) := by
  induction m with
  | nil => simp [appendBin, binsJoin]
  | cons kv rest ih =>
    obtain ⟨kk, es⟩ := kv
    by_cases hk : kk = k
    · simp only [appendBin, hk, if_pos rfl, binsJoin, List.append_assoc]
      exact (@List.perm_append_comm _ [e] (binsJoin rest)).append_left es
    · simp only [appendBin, hk, if_neg hk, binsJoin, List.append_assoc]
      exact ih.append_left es

/-- Running the binner loop grows each bucket by exactly the input entries
whose key matches, in input order. -/
theorem bin_go_bucket (b : ℚ) (k : BinKey) :
    ∀ (data : List Entry) (m : BinMap),
      bucketOf (bin_coordinates_go b m data) k = bucketOf m k ++ data.filter (keyMatches b k)
  | [], m => by simp [bin_coordinates_go]
  | e :: es, m => by
    cases hk : entryKey b e with
    | none =>
      have hm : keyMatches b k e = false := by simp [keyMatches, hk]
      simp [bin_coordinates_go, hk, List.filter_cons, hm, bin_go_bucket b k es m]
    | some k2 =>
      rw [bin_coordinates_go, hk]
      rw [bin_go_bucket b k es (appendBin m k2 e), bucketOf_appendBin]
      by_cases h : k = k2
      · subst h
        have hm : keyMatches b k e = true := by simp [keyMatches, hk]
        simp [List.filter_cons, hm, List.append_assoc]
      · have hm : keyMatches b k e = false := by simp [keyMatches, hk, Ne.symm h]
        simp [List.filter_cons, hm, h]

/-- Running the binner loop joins to a permutation of the accumulated map's
contents followed by the binnable input entries. -/
theorem bin_go_join (b : ℚ) :
    ∀ (data : List Entry) (m : BinMap),
      (binsJoin (bin_coordinates_go b m data)).Perm (binsJoin m ++ data.filter (hasKey b))
  | [], m => by simp [bin_coordinates_go]
  | e :: es, m => by
    cases hk : entryKey b e with
    | none =>
      have hm : hasKey b e = false := by simp [hasKey, hk]
      simpa [bin_coordinates_go, hk, List.filter_cons, hm] using bin_go_join b es m
    | some k2 =>
      have hm : hasKey b e = true := by simp [hasKey, hk]
      rw [bin_coordinates_go, hk]
      refine (bin_go_join b es (appendBin m k2 e)).trans ?_
      refine ((binsJoin_appendBin m k2 e).append_right (es.filter (hasKey b))).trans ?_
      simp [List.filter_cons, hm, List.append_assoc]

/-- Whether an entry is binned depends only on the finiteness of its
latitude and longitude. -/
theorem hasKey_eq (b : ℚ) (e : Entry) : hasKey b e = (isFinite e.1 && isFinite e.2.1) := by
  obtain ⟨la, lo, alt⟩ := e
  cases la <;> cases lo <;> rfl

/-- C5: for every input and bin size > 0 the binner maps each finite-lat/lon
position to the single key `(round(lat/bin_size)*bin_size,
round(lon/bin_size)*bin_size)`, each bucket is exactly the subsequence of
the filtered input with that key (order preserved), and the union of the
buckets is a permutation of the filtered input — no drops, no duplicates. -/
theorem C5_binner_partition (data : List Entry) (b : ℚ) (hb : 0 < b) :
    (∀ (la lo : ℚ) (alt : FVal),
        entryKey b (FVal.fin la, FVal.fin lo, alt)
          = some ((pyRound (la / b) : ℚ) * b, (pyRound (lo / b) : ℚ) * b)) ∧
    (∀ k, bucketOf (bin_coordinates data b) k = data.filter (keyMatches b k)) ∧
    (binsJoin (bin_coordinates data b)).Perm (data.filter (hasKey b)) := by
  have : (0 : ℚ) < b := hb
  refine ⟨fun la lo alt => rfl, fun k => ?_, ?_⟩
  · simpa [bucketOf, alookup] using bin_go_bucket b k data []
  · simpa [binsJoin] using bin_go_join b data []

/-- Witness for C5 on a singleton input with bin size 2. -/
theorem C5_binner_partition_witness :
    (0 : ℚ) < 2 ∧
      (∀ (la lo : ℚ) (alt : FVal),
          entryKey 2 (FVal.fin la, FVal.fin lo, alt)
            = some ((pyRound (la / 2) : ℚ) * 2, (pyRound (lo / 2) : ℚ) * 2)) ∧
      (∀ k, bucketOf (bin_coordinates [e0] 2) k = [e0].filter (keyMatches 2 k)) ∧
      (binsJoin (bin_coordinates [e0] 2)).Perm ([e0].filter (hasKey 2)) :=
  ⟨by norm_num, C5_binner_partition [e0] 2 (by norm_num)⟩

/-- C10: the binner's own finiteness filter inspects only latitude and
longitude — an entry lands in a bucket exactly when it is an input entry
with finite latitude and longitude, regardless of its altitude; in
particular a finite-lat/lon entry with non-finite altitude is kept and an
entry with non-finite latitude or longitude is dropped. -/
theorem C10_bin_filter_latlon_only :
    (∀ (data : List Entry) (b : ℚ) (e : Entry),
        e ∈ binsJoin (bin_coordinates data b) ↔
          e ∈ data ∧ isFinite e.1 = true ∧ isFinite e.2.1 = true) ∧
    binsJoin (bin_coordinates [(FVal.fin 1, FVal.fin 2, FVal.nonfin)] 2)
      = [(FVal.fin 1, FVal.fin 2, FVal.nonfin)] ∧
    bin_coordinates [(FVal.nonfin, FVal.fin 2, FVal.fin 3),
      (FVal.fin 1, FVal.nonfin, FVal.fin 3)] 2 = [] := by
  refine ⟨fun data b e => ?_, rfl, rfl⟩
  have hp : (binsJoin (bin_coordinates data b)).Perm (data.filter (hasKey b)) := by
    simpa [binsJoin] using bin_go_join b data []
  rw [hp.mem_iff, List.mem_filter, hasKey_eq, Bool.and_eq_true]

/-- An entry the filter keeps is a 3-element numeric tuple of finite values. -/
theorem checkEntry_eq_true (e : RawEntry) (h : checkEntry e = some true) :
    ∃ a b c, entryVals e = some (a, b, c) ∧
      isFinite a = true ∧ isFinite b = true ∧ isFinite c = true := by
  match e with
  | .nonArr => simp [checkEntry] at h
  | .arr [] => simp [checkEntry] at h
  | .arr [v1] => simp [checkEntry] at h
  | .arr [v1, v2] => simp [checkEntry] at h
  | .arr (v1 :: v2 :: v3 :: v4 :: vs) => simp [checkEntry] at h
  | .arr [v1, v2, v3] =>
    simp only [checkEntry, List.length_cons, List.length_nil, if_pos rfl, List.all_cons,
      List.all_nil, Bool.and_true] at h
    rcases hn : vNum v1 && (vNum v2 && vNum v3) with _ | _
    · rw [hn] at h; simp at h
    · rw [hn] at h
      simp only [if_pos rfl, Option.some.injEq] at h
      obtain ⟨h1, h2, h3⟩ := by simpa [Bool.and_eq_true] using hn
      match v1, v2, v3, h1, h2, h3 with
      | .num a, .num b, .num c, _, _, _ =>
        refine ⟨a, b, c, rfl, ?_, ?_, ?_⟩ <;>
          simpa [vFinite, Bool.and_eq_true] using by
            obtain ⟨f1, f2, f3⟩ := by simpa [vFinite, Bool.and_eq_true] using h.symm
            first
              | exact f1
              | exact f2
              | exact f3

/-- When no entry makes the filter condition raise, the comprehension keeps
exactly the valid triples, in input order. -/
theorem tryFilter_no_raise (entries : List RawEntry)
    (h : ∀ e ∈ entries, checkEntry e ≠ none) :
    tryFilter entries = some (entries.filterMap validTriple) := by
  induction entries with
  | nil => rfl
  | cons e es ih =>
    have he := h e (List.mem_cons_self e es)
    have hes := ih fun x hx => h x (List.mem_cons_of_mem e hx)
    cases hc : checkEntry e with
    | none => exact absurd hc he
    | some keep =>
      rw [tryFilter, hc, hes]
      cases keep with
      | false => simp [List.filterMap_cons, validTriple, hc]
      | true =>
        obtain ⟨a, b, c, hv, _, _, _⟩ := checkEntry_eq_true e hc
        simp [List.filterMap_cons, validTriple, hc, hv]

/-- One raising entry anywhere makes the whole comprehension raise. -/
theorem tryFilter_raise (entries : List RawEntry) (e : RawEntry)
    (he : e ∈ entries) (hc : checkEntry e = none) : tryFilter entries = none := by
  induction entries with
  | nil => exact absurd he (List.not_mem_nil e)
  | cons f fs ih =>
    rcases List.mem_cons.mp he with rfl | hfs
    · simp [tryFilter, hc]
    · cases hcf : checkEntry f with
      | none => simp [tryFilter, hcf]
      | some keep => simp [tryFilter, hcf, ih hfs]

/-- Every triple the comprehension keeps is all-finite. -/
theorem tryFilter_finite :
    ∀ (entries : List RawEntry) (kept : List Entry), tryFilter entries = some kept →
      ∀ t ∈ kept, allFinite t = true
  | [], kept, h => by
    simp only [tryFilter, Option.some.injEq] at h
    simp [← h]
  | e :: es, kept, h => by
    rw [tryFilter] at h
    cases hc : checkEntry e with
    | none => rw [hc] at h; exact absurd h (by simp)
    | some keep =>
      rw [hc] at h
      cases hr : tryFilter es with
      | none => rw [hr] at h; exact absurd h (by simp)
      | some rest =>
        rw [hr] at h
        have ihr := tryFilter_finite es rest hr
        cases keep with
        | false =>
          have hk : rest = kept := by simpa using h
          subst hk
          exact ihr
        | true =>
          cases hv : entryVals e with
          | none =>
            rw [hv] at h
            have hk : rest = kept := by simpa using h
            subst hk
            exact ihr
          | some t0 =>
            rw [hv] at h
            have hk : t0 :: rest = kept := by simpa using h
            obtain ⟨a, b, c, hv2, f1, f2, f3⟩ := checkEntry_eq_true e hc
            intro t ht
            rw [← hk] at ht
            rcases List.mem_cons.mp ht with heq | hrest
            · have ht0 : t0 = (a, b, c) := by
                rw [hv] at hv2
                simpa using hv2
              rw [heq, ht0]
              simp [allFinite, f1, f2, f3]
            · exact ihr t hrest

/-- C2 counterexample: the feed body `[goodE, badE]` holds one valid
3-element all-finite entry and one 3-element entry with a non-numeric
value; the filter condition raises on the malformed entry, the handler
catches it, and the whole fetch returns the empty list — the remaining
valid entry IS lost, contradicting the claim that a single malformed entry
never loses the other entries. -/
theorem C2_counterexample :
    checkEntry goodE = some true ∧
    entryVals goodE = some (FVal.fin 1, FVal.fin 2, FVal.fin 3) ∧
    fetch_balloon_data (.ok (.list [goodE, badE])) = [] := by
  refine ⟨rfl, rfl, rfl⟩

/-- C2 (amended): when no entry makes the finiteness check raise a type
error, each entry is validated independently — non-3-element or non-finite
numeric entries are silently discarded, the rest are kept in order; in all
cases the fetch never returns a record with a non-finite latitude,
longitude or altitude; but an entry on which the check raises (a 3-element
entry with a non-numeric value, or a non-sequence entry) makes the whole
fetch return empty, losing the valid entries too. -/
theorem C2_fetch_validation :
    (∀ entries : List RawEntry, (∀ e ∈ entries, checkEntry e ≠ none) →
        fetch_balloon_data (.ok (.list entries)) = entries.filterMap validTriple) ∧
    (∀ (resp : FeedResp) (t : Entry), t ∈ fetch_balloon_data resp → allFinite t = true) ∧
    (∀ (entries : List RawEntry) (e : RawEntry), e ∈ entries → checkEntry e = none →
        fetch_balloon_data (.ok (.list entries)) = []) := by
  refine ⟨fun entries h => ?_, fun resp t ht => ?_, fun entries e he hc => ?_⟩
  · cases entries with
    | nil => rfl
    | cons f fs =>
      simp [fetch_balloon_data, List.isEmpty_cons, tryFilter_no_raise (f :: fs) h]
  · match resp with
    | .failure => exact absurd ht (List.not_mem_nil t)
    | .ok .notJson => exact absurd ht (List.not_mem_nil t)
    | .ok .notList => exact absurd ht (List.not_mem_nil t)
    | .ok (.list entries) =>
      rw [fetch_balloon_data] at ht
      by_cases hemp : entries.isEmpty
      · rw [if_pos hemp] at ht
        exact absurd ht (List.not_mem_nil t)
      · rw [if_neg hemp] at ht
        cases hf : tryFilter entries with
        | none => rw [hf] at ht; exact absurd ht (List.not_mem_nil t)
        | some kept => rw [hf] at ht; exact tryFilter_finite entries kept hf t ht
  · cases entries with
    | nil => exact absurd he (List.not_mem_nil e)
    | cons f fs =>
      simp [fetch_balloon_data, List.isEmpty_cons, tryFilter_raise (f :: fs) e he hc]

/-- Lookup after a dictionary assignment. -/
theorem alookup_dictInsert (m : WMap) (k k2 : BinKey) (v : WRec) :
    alookup (dictInsert m k v) k2 = if k2 = k then some v else alookup m k2 := by
  induction m with
  | nil =>
    by_cases h : k2 = k
    · simp [dictInsert, alookup, h]
    · simp [dictInsert, alookup, h, Ne.symm h]
  | cons kv rest ih =>
    obtain ⟨kk, w⟩ := kv
    by_cases hk : kk = k
    · subst hk
      by_cases h2 : k2 = kk
      · simp [dictInsert, alookup, h2]
      · simp [dictInsert, alookup, h2, Ne.symm h2]
    · by_cases h3 : kk = k2
      · have : ¬ k2 = k := fun h => hk (h3.trans h)
        simp [dictInsert, alookup, hk, h3, this]
      · simpa [dictInsert, alookup, hk, h3] using ih

/-- The cache pass hands on as fetch tasks exactly the keys the cache does
not hold, appended in key order. -/
theorem partitionGo_tasks (cache : WMap) :
    ∀ (ks : List BinKey) (wd : WMap) (tasks : List BinKey),
      (partitionGo cache wd tasks ks).2
        = tasks ++ ks.filter (fun k => (alookup cache k).isNone)
  | [], wd, tasks => by simp [partitionGo]
  | k :: ks, wd, tasks => by
    cases hc : alookup cache k with
    | some w =>
      simp [partitionGo, hc, List.filter_cons, partitionGo_tasks cache ks (dictInsert wd k w) tasks]
    | none =>
      simp [partitionGo, hc, List.filter_cons,
        partitionGo_tasks cache ks wd (tasks ++ [k]), List.append_assoc]

/-- After the cache pass, `weather_data` answers a key with the cache's
record exactly when the key was requested and cached. -/
theorem partitionGo_lookup (cache : WMap) :
    ∀ (ks : List BinKey) (wd : WMap) (tasks : List BinKey) (k : BinKey),
      alookup (partitionGo cache wd tasks ks).1 k
        = if k ∈ ks ∧ (alookup cache k).isSome then alookup cache k else alookup wd k
  | [], wd, tasks, k => by simp [partitionGo]
  | k2 :: ks, wd, tasks, k => by
    cases hc : alookup cache k2 with
    | some w =>
      rw [partitionGo, hc, partitionGo_lookup cache ks (dictInsert wd k2 w) tasks k,
        alookup_dictInsert]
      by_cases h1 : k ∈ ks ∧ (alookup cache k).isSome
      · rw [if_pos h1, if_pos ⟨List.mem_cons_of_mem k2 h1.1, h1.2⟩]
      · by_cases h2 : k = k2
        · subst h2
          rw [if_neg h1, if_pos rfl, hc, if_pos ⟨List.mem_cons_self k ks, rfl⟩]
        · rw [if_neg h1, if_neg h2, if_neg ?_]
          intro hcon
          rcases List.mem_cons.mp hcon.1 with heq | hmem
          · exact h2 heq
          · exact h1 ⟨hmem, hcon.2⟩
    | none =>
      rw [partitionGo, hc, partitionGo_lookup cache ks wd (tasks ++ [k2]) k]
      by_cases h1 : k ∈ ks ∧ (alookup cache k).isSome
      · rw [if_pos h1, if_pos ⟨List.mem_cons_of_mem k2 h1.1, h1.2⟩]
      · rw [if_neg h1, if_neg ?_]
        intro hcon
        rcases List.mem_cons.mp hcon.1 with heq | hmem
        · rw [heq, hc] at hcon
          exact absurd hcon.2 (by simp)
        · exact h1 ⟨hmem, hcon.2⟩

/-- C9: in an orchestrator run the keys handed to `fetch_weather` are
exactly the requested keys the cache does not hold, in request order, and
after the cache pass every requested cached key is served the cache's own
record (other keys are absent at that point). -/
theorem C9_fetch_only_uncached (cache : WMap) (keys : List BinKey) :
    (partitionKeys cache keys).2 = keys.filter (fun k => (alookup cache k).isNone) ∧
    (∀ k, alookup (partitionKeys cache keys).1 k
        = if k ∈ keys then alookup cache k else none) := by
  constructor
  · simpa [partitionKeys] using partitionGo_tasks cache keys [] []
  · intro k
    rw [partitionKeys, partitionGo_lookup cache keys [] [] k]
    by_cases hm : k ∈ keys
    · cases hc : alookup cache k with
      | some w => rw [if_pos ⟨hm, rfl⟩, if_pos hm]
      | none => rw [if_neg (fun h => absurd h.2 (by simp)), if_pos hm]; rfl
    · rw [if_neg (fun h => hm h.1), if_neg hm]; rfl

/-- The retry loop makes at most `fuel` further calls. -/
theorem fetch_go_count (r : ℕ → Resp) :
    ∀ (fuel n : ℕ), (fetch_weather_go r fuel n).2 ≤ n + fuel
  | 0, n => by simp [fetch_weather_go]
  | fuel + 1, n => by
    cases hr : r n with
    | ok body =>
      cases body <;> simp [fetch_weather_go, hr]
    | rateLimited =>
      have := fetch_go_count r fuel (n + 1)
      simp only [fetch_weather_go, hr]
      omega
    | err c => simp [fetch_weather_go, hr]

/-- With an empty cache the cache pass serves nothing and every requested
key becomes a fetch task. -/
theorem partitionGo_nil_cache :
    ∀ (ks tasks : List BinKey) (wd : WMap),
      partitionGo [] wd tasks ks = (wd, tasks ++ ks)
  | [], tasks, wd => by simp [partitionGo]
  | k :: ks, tasks, wd => by
    simp [partitionGo, alookup, partitionGo_nil_cache ks (tasks ++ [k]) wd]

/-- A key never paired with a truthy result is untouched by the merge loop. -/
theorem mergeGo_lookup_none (k : BinKey) :
    ∀ (pairs : List (BinKey × Option WJson)) (wd cache : WMap),
      (∀ j : WJson, (k, some j) ∉ pairs) →
      alookup (mergeGo wd cache pairs).1 k = alookup wd k
  | [], wd, cache, _ => by simp [mergeGo]
  | (k2, some j) :: rest, wd, cache, h => by
    have hk : ¬ k2 = k := by
      intro he
      exact h j (by rw [he]; exact List.mem_cons_self _ _)
    rw [mergeGo, mergeGo_lookup_none k rest _ _ (fun j2 hj2 => h j2 (List.mem_cons_of_mem _ hj2)),
      alookup_dictInsert, if_neg (fun he => hk he.symm)]
  | (k2, none) :: rest, wd, cache, h => by
    rw [mergeGo, mergeGo_lookup_none k rest wd cache
      (fun j2 hj2 => h j2 (List.mem_cons_of_mem _ hj2))]

/-- A pair of a key list zipped with its own image under `f` evaluates `f`
at the paired key. -/
theorem zip_self_map (f : BinKey → Option WJson) :
    ∀ (keys : List BinKey) (k : BinKey) (r : Option WJson),
      (k, r) ∈ keys.zip (keys.map f) → r = f k
  | [], k, r, h => absurd h (List.not_mem_nil _)
  | k2 :: ks, k, r, h => by
    rw [List.map_cons, List.zip_cons_cons] at h
    rcases List.mem_cons.mp h with heq | hmem
    · obtain ⟨h1, h2⟩ := Prod.mk.injEq .. ▸ heq
      rw [Prod.mk.injEq] at heq
      rw [heq.2, heq.1]
    · exact zip_self_map f ks k r hmem

/-- C3: the per-key weather fetch makes at most 3 upstream calls; two 429s
then a parseable 200 yield the parsed record after exactly 3 calls;
constant 429 yields no record after exactly 3 calls; any other non-success
status, or a 200 whose body fails to parse, abandons retries after that
single call with no record and no exception; and in a run over an empty
cache a key whose fetch yielded no record is absent from the returned
mapping, while a single-key run whose fetch succeeded maps the key to its
parsed record. -/
theorem C3_retry_policy :
    (∀ r : ℕ → Resp, (fetch_weather r).2 ≤ 3) ∧
    (∀ (r : ℕ → Resp) (j : WJson), r 0 = .rateLimited → r 1 = .rateLimited →
        r 2 = .ok (.valid j) → fetch_weather r = (some j, 3)) ∧
    (∀ r : ℕ → Resp, (∀ n, r n = .rateLimited) → fetch_weather r = (none, 3)) ∧
    (∀ (r : ℕ → Resp) (c : ℕ), r 0 = .err c → fetch_weather r = (none, 1)) ∧
    (∀ r : ℕ → Resp, r 0 = .ok .malformed → fetch_weather r = (none, 1)) ∧
    (∀ (keys : List BinKey) (endpoint : BinKey → ℕ → Resp) (k : BinKey),
        (fetch_weather (endpoint k)).1 = none →
        alookup (get_all_weather [] keys endpoint).1 k = none) ∧
    (∀ (endpoint : BinKey → ℕ → Resp) (k : BinKey) (j : WJson),
        (fetch_weather (endpoint k)).1 = some j →
        (get_all_weather [] [k] endpoint).1 = [(k, extractW j)]) := by
  refine ⟨fun r => fetch_go_count r 3 0, fun r j h0 h1 h2 => ?_, fun r h => ?_,
    fun r c h0 => ?_, fun r h0 => ?_, fun keys endpoint k hf => ?_, fun endpoint k j hf => ?_⟩
  · show fetch_weather_go r 3 0 = (some j, 3)
    rw [show (3 : ℕ) = 2 + 1 from rfl, fetch_weather_go, h0,
      show (2 : ℕ) = 1 + 1 from rfl, fetch_weather_go, h1, fetch_weather_go, h2]
  · show fetch_weather_go r 3 0 = (none, 3)
    rw [show (3 : ℕ) = 2 + 1 from rfl, fetch_weather_go, h 0,
      show (2 : ℕ) = 1 + 1 from rfl, fetch_weather_go, h 1, fetch_weather_go, h 2,
      fetch_weather_go]
  · show fetch_weather_go r 3 0 = (none, 1)
    rw [show (3 : ℕ) = 2 + 1 from rfl, fetch_weather_go, h0]
  · show fetch_weather_go r 3 0 = (none, 1)
    rw [show (3 : ℕ) = 2 + 1 from rfl, fetch_weather_go, h0]
  · rw [get_all_weather]
    simp only [partitionKeys, partitionGo_nil_cache keys [] [], List.nil_append]
    refine mergeGo_lookup_none k _ [] [] (fun j hj => ?_)
    have h2 : some j = (fetch_weather (endpoint k)).1 :=
      zip_self_map (fun k2 => (fetch_weather (endpoint k2)).1) keys k (some j) hj
    rw [hf] at h2
    exact Option.noConfusion h2
  · rw [get_all_weather]
    simp only [partitionKeys, partitionGo_nil_cache [k] [] [], List.nil_append,
      List.map_cons, List.map_nil, List.zip_cons_cons, List.zip_nil_right, hf]
    rfl

/-- Witness for C3 at a constant-429 endpoint: the key is omitted after
exactly 3 attempts. -/
theorem C3_retry_policy_witness :
    fetch_weather (fun _ => Resp.rateLimited) = (none, 3) :=
  C3_retry_policy.2.2.1 (fun _ => Resp.rateLimited) (fun _ => rfl)

/-- C1 (bug witness): run the orchestrator over keys `[k1, k2]` with `k1`
cached as `w1` and an endpoint that answers only for `k2`'s coordinates
with `j2`. Line 95 zips ALL requested keys against results that exist only
for the uncached keys, so the record fetched for `k2`'s coordinates is
returned under `k1` (overwriting the cached value), is inserted into the
cache under `k1`, and `k2` is absent from the result — contradicting the
claim that every returned record is the cache's record for that key or one
fetched for that key's own coordinates, and that fresh records are cached
under the key whose coordinates were fetched. -/
theorem C1_zip_misassociation :
    get_all_weather [(k1, w1)] [k1, k2] epC1 = ([(k1, extractW j2)], [(k1, extractW j2)]) ∧
    extractW j2 ≠ w1 ∧
    alookup (get_all_weather [(k1, w1)] [k1, k2] epC1).1 k2 = none ∧
    (fetch_weather (epC1 k2)).1 = some j2 := by
  refine ⟨by decide, by decide, by decide, by decide⟩

/-- C4 (bug witness): with `w1` stored in the cache for `k1`, the same
mixed run replaces the cache's entry for `k1` with the record fetched for
`k2`'s coordinates — a later `get(k1)` no longer returns `w1`, so a stored
record does not persist for the process lifetime. -/
theorem C4_cache_entry_replaced :
    alookup [(k1, w1)] k1 = some w1 ∧
    alookup (get_all_weather [(k1, w1)] [k1, k2] epC1).2 k1 = some (extractW j2) ∧
    extractW j2 ≠ w1 := by
  refine ⟨by decide, by decide, by decide⟩

/-- The accumulating assembly loop appends the spec-side flat map. -/
theorem assembleGo_eq (wm : WMap) :
    ∀ (bm : BinMap) (acc : List OutRec),
      assembleGo wm acc bm = acc ++ assemble_spec bm wm
  | [], acc => by simp [assembleGo, assemble_spec]
  | kb :: rest, acc => by
    cases hw : alookup wm kb.1 with
    | some w =>
      simp [assembleGo, assemble_spec, hw, assembleGo_eq wm rest, List.append_assoc]
    | none =>
      simp [assembleGo, assemble_spec, hw, assembleGo_eq wm rest]

/-- C6: the assembler emits, for each bin key of `bin_map` that also has a
weather record, exactly one output record per position in the bin — the
position's own lat/lon/alt joined with the bin's shared weather fields —
iterating bins in binner order and positions in bucket order; bins without
a weather record contribute nothing, and an empty weather map yields an
empty output. -/
theorem C6_assembler :
    (∀ (bm : BinMap) (wm : WMap), assemble bm wm = assemble_spec bm wm) ∧
    (∀ (pA pB : Entry) (w : WRec),
        assemble [((0, 0), [pA, pB])] [((0, 0), w)] = [mkOut pA w, mkOut pB w]) ∧
    (∀ bm : BinMap, assemble bm [] = []) := by
  refine ⟨fun bm wm => ?_, fun pA pB w => rfl, fun bm => ?_⟩
  · simpa [assemble] using assembleGo_eq wm bm []
  · have h : ∀ bm : BinMap, assemble_spec bm [] = [] := by
      intro bm
      induction bm with
      | nil => rfl
      | cons kb rest ih => simp [assemble_spec, alookup, ih]
    simpa [assemble, h bm] using assembleGo_eq [] bm []

/-- C7: the route's outcome is the explicit failure signal exactly when the
telemetry fetch produced no positions; whenever it produced any, the run
completes with the (possibly empty) assembled result list for every
behavior of the weather endpoint — per-bin weather failures never abort
the run, they only leave bins out of the weather map and hence their
positions out of the output. -/
theorem C7_pipeline_outcomes (raw : FeedResp) (cache : WMap)
    (endpoint : BinKey → ℕ → Resp) :
    ((balloon_weather raw cache endpoint).1 = Outcome.err ↔ fetch_balloon_data raw = []) ∧
    (fetch_balloon_data raw ≠ [] →
      (balloon_weather raw cache endpoint).1 =
        Outcome.ok (assemble (bin_coordinates (fetch_balloon_data raw) BIN_SIZE)
          (get_all_weather cache
            ((bin_coordinates (fetch_balloon_data raw) BIN_SIZE).map Prod.fst)
            endpoint).1)) := by
  cases hd : fetch_balloon_data raw with
  | nil =>
    constructor
    · simp [balloon_weather, hd]
    · intro h
      exact absurd rfl h
  | cons e es =>
    constructor
    · simp [balloon_weather, hd]
    · intro _
      simp [balloon_weather, hd]

end BalloonWeather
